import Mathlib

/-!
Verification of the arachne dataflow-runtime core against its specification.

The definitions below are a shallow embedding of the Python sources under
`src/arachne/core` (`policies.py`, `ports.py`, `edge.py`, `message.py`,
`subgraph.py`, `priority_queue.py`, `scheduler.py`).  Python deques are
embedded as Lean lists with the head at the queue front (`append` = push at
the tail, `pop` = remove at the tail, `popleft` = remove at the head).
Python exceptions are embedded with `Except`: a function that can raise
returns `Except E A`, and callables that may raise arbitrary user errors
are embedded as `Option`-valued functions (`none` = the call raised).
Machine integers do not overflow in the modelled code paths (Python ints
are unbounded), so sizes are `Nat` and user-facing integers are `Int`.
-/

namespace Arachne

/-- `PutResult` from `policies.py`: the closed enumeration of enqueue
outcomes. -/
inductive PutResult where
  | OK
  | BLOCKED
  | DROPPED
  | REPLACED
  | COALESCED
deriving DecidableEq, Repr

/-- The policy objects of `policies.py` (`Block`, `Drop`, `Latest`,
`Coalesce(fn)`) as a tagged variant.  The `Coalesce` merge callable may
raise, which is embedded as an `Option`-valued function (`none` = the call
raised an exception). -/
inductive Policy (α : Type) where
  | Block
  | Drop
  | Latest
  | Coalesce (fn : α → α → Option α)

/-- `on_enqueue` of the four policy classes in `policies.py`.  Each policy
inspects only `capacity` and the current `size` (the `item` argument is
never read by any of the four implementations). -/
def onEnqueue (pol : Policy α) (capacity size : Nat) : PutResult :=
  match pol with
  | .Block => if size ≥ capacity then .BLOCKED else .OK
  | .Drop => if size ≥ capacity then .DROPPED else .OK
  | .Latest => if size ≥ capacity then .REPLACED else .OK
  | .Coalesce _ => if size ≥ capacity then .COALESCED else .OK

/-- `PortSpec` from `ports.py`.  The Python `schema` is `None`, a type, or
a tuple of types; `validate` is `isinstance(value, schema)`, which over a
fixed dynamic value universe is a boolean predicate on values, so the
schema is embedded as `Option (α → Bool)` (`none` = Python `None`). -/
structure PortSpec (α : Type) where
  name : String
  schema : Option (α → Bool) := none

/-- `PortSpec.validate` from `ports.py`: a spec with no schema accepts
everything; otherwise membership in the schema is tested. -/
def PortSpec.validate (s : PortSpec α) (value : α) : Bool :=
  match s.schema with
  | none => true
  | some p => p value

/-- The guard `if self.spec and not self.spec.validate(item)` opening
`Edge.try_put` in `edge.py` (a `PortSpec` instance is always truthy, so
the first conjunct is exactly a `None` test). -/
def specRejects (spec : Option (PortSpec α)) (item : α) : Bool :=
  match spec with
  | none => false
  | some s => !(s.validate item)

/-- The exceptions that can escape `Edge.try_put`: the `TypeError` raised
on spec-validation failure, and an exception propagating out of the
`Coalesce` merge callable. -/
inductive PutErr where
  | typeError
  | mergeError
deriving DecidableEq, Repr

/-- The observable outcome of one `Edge.try_put` call: either the returned
`PutResult` or the exception that escaped, together with the queue contents
when control leaves the call. -/
structure PutOutcome (α : Type) where
  result : Except PutErr PutResult
  queue : List α

/-- `Edge._coalesce` from `edge.py`, together with the COALESCED result
the caller reports on success: if the deque is non-empty, pop the tail,
call `fn.fn(old, new_item)` and append the merged result — the source has
NO handler around the merge call, so if it raises the exception escapes
with the tail already popped and nothing appended; if the deque is empty,
append the new item. -/
def coalescePut (fn : α → α → Option α) (q : List α) (item : α) : PutOutcome α :=
  match q.getLast? with
  | some old =>
    match fn old item with
    | some merged => ⟨.ok .COALESCED, q.dropLast ++ [merged]⟩
    | none => ⟨.error .mergeError, q.dropLast⟩
  | none => ⟨.ok .COALESCED, q ++ [item]⟩

/-- `Edge.try_put` from `edge.py` (metrics calls elided; they do not touch
the queue).  Steps, in source order: the spec guard raises `TypeError`
without touching the queue; `pol = policy or Latest()`;
`res = pol.on_enqueue(capacity, len(q), item)`; then the physical effect:
`OK` appends, `REPLACED` pops the tail (if non-empty) and appends,
`DROPPED`/`BLOCKED` leave the queue alone, and `COALESCED` (guarded by
`isinstance(pol, Coalesce)`) runs `Edge._coalesce`. -/
def tryPut (capacity : Nat) (spec : Option (PortSpec α)) (q : List α)
    (item : α) (policy : Option (Policy α)) : PutOutcome α :=
  if specRejects spec item then ⟨.error .typeError, q⟩
  else
    let pol := policy.getD .Latest
    match onEnqueue pol capacity q.length, pol with
    | .OK, _ => ⟨.ok .OK, q ++ [item]⟩
    | .REPLACED, _ => ⟨.ok .REPLACED, (if q.isEmpty then q else q.dropLast) ++ [item]⟩
    | .DROPPED, _ => ⟨.ok .DROPPED, q⟩
    | .BLOCKED, _ => ⟨.ok .BLOCKED, q⟩
    | .COALESCED, .Coalesce fn => coalescePut fn q item
    | .COALESCED, _ => ⟨.ok .COALESCED, q⟩

/-- `Edge.try_get` from `edge.py`: `None` on an empty queue, else
`popleft`.  Returns the dequeued item and the remaining queue. -/
def tryGet (q : List α) : Option α × List α :=
  match q with
  | [] => (none, [])
  | x :: rest => (some x, rest)

/-- Draining an edge: repeated `try_get` until it returns `None`,
collecting the dequeued items in order. -/
def drain (q : List α) : List α :=
  match q with
  | [] => []
  | x :: rest => x :: drain rest

/-- The mutable state of one `Edge` from `edge.py` that the queue
operations read and write: `capacity`, the optional `spec`, and the
deque `_q`. -/
structure EdgeState (α : Type) where
  capacity : Nat
  spec : Option (PortSpec α) := none
  queue : List α := []

/-- Edge state after a `try_put` call: the queue `try_put` leaves behind
(on the normal and on both raising paths). -/
def putState (e : EdgeState α) (item : α) (policy : Option (Policy α)) : EdgeState α :=
  { e with queue := (tryPut e.capacity e.spec e.queue item policy).queue }

/-- Edge state after a `try_get` call. -/
def getState (e : EdgeState α) : EdgeState α :=
  { e with queue := (tryGet e.queue).2 }

/-- `Scheduler.set_capacity` from `scheduler.py`, restricted to its effect
on one known edge while running: `capacity <= 0` raises `ValueError`;
otherwise the edge's `capacity` field is overwritten in place (the queue is
not drained). -/
def setCapacity (e : EdgeState α) (capacity : Int) : Except Unit (EdgeState α) :=
  if capacity ≤ 0 then .error ()
  else .ok { e with capacity := capacity.toNat }

/-- The depth invariant of the spec: the queue never holds more items than
`capacity`. -/
def EdgeInv (e : EdgeState α) : Prop :=
  e.queue.length ≤ e.capacity

/-- `MessageType` from `message.py`. -/
inductive MessageType where
  | DATA
  | CONTROL
  | ERROR
deriving DecidableEq, Repr

/-- A universe of dynamic Python values for the paths where the code
branches on the runtime type of an item: integers, strings, and `Message`
objects (a message's payload may itself be any value, including another
message, which is exactly what `NodeProcessor.process_node_messages`
produces). -/
inductive PyVal where
  | vint (n : Int)
  | vstr (s : String)
  | vmsgOf (type : MessageType) (payload : PyVal)
deriving DecidableEq, Repr

/-- `isinstance(value, int)` on the dynamic universe: true exactly on
integer values; in particular false on every `Message` object, whatever
its payload. -/
def isInt : PyVal → Bool
  | .vint _ => true
  | _ => false

/-- The payload of a `Message` value (`message.payload`). -/
def PyVal.payloadOf : PyVal → Option PyVal
  | .vmsgOf _ p => some p
  | _ => none

/-- `PriorityBand` re-exported by `arachne.core.runtime_plan`.
Modelled from the spec: the `runtime_plan` implementation module is absent
from the sources (only its re-exporting package marker is present); the
spec defines `PriorityBand` as the closed enumeration
{Control, High, Normal} with Control the highest. -/
inductive PriorityBand where
  | CONTROL
  | HIGH
  | NORMAL
deriving DecidableEq, Repr

/-- The three per-band ready deques `_ready_queues` of
`PrioritySchedulingQueue` in `priority_queue.py` (Python dict insertion
order: CONTROL, HIGH, NORMAL). -/
structure PQState where
  control : List String
  high : List String
  normal : List String
deriving DecidableEq, Repr

/-- The final `for band, queue in self._ready_queues.items()` fallback
loop of `get_next_runnable`: service any available node, visiting the
bands in dict insertion order CONTROL, HIGH, NORMAL. -/
def fallbackPick (st : PQState) : Option (String × PriorityBand) × PQState :=
  match st.control with
  | c :: rest => (some (c, .CONTROL), { st with control := rest })
  | [] =>
    match st.high with
    | h :: rest => (some (h, .HIGH), { st with high := rest })
    | [] =>
      match st.normal with
      | n :: rest => (some (n, .NORMAL), { st with normal := rest })
      | [] => (none, st)

/-- `PrioritySchedulingQueue.get_next_runnable` from `priority_queue.py`.
The bands are polled in order CONTROL, HIGH, NORMAL; an empty band is
skipped (`continue`); a non-empty band is serviced when the
floating-point fairness test `current_tick % total_ratio <
band_ratio * total_ratio` fires, which is abstracted here as an arbitrary
boolean `fair` per band (every theorem below holds for every valuation of
that test); the CONTROL band is additionally serviced unconditionally
("Always service control plane if available"); if no band was picked the
fallback loop services the first non-empty band. -/
def getNextRunnable (fair : PriorityBand → Bool) (st : PQState) :
    Option (String × PriorityBand) × PQState :=
  match st.control with
  | c :: rest =>
    if fair .CONTROL then (some (c, .CONTROL), { st with control := rest })
    else
      -- `if band == PriorityBand.CONTROL and queue:` — the unconditional
      -- control-plane branch fires on the same pop.
      (some (c, .CONTROL), { st with control := rest })
  | [] =>
    match st.high with
    | h :: rest =>
      if fair .HIGH then (some (h, .HIGH), { st with high := rest })
      else
        match st.normal with
        | n :: rest2 =>
          if fair .NORMAL then (some (n, .NORMAL), { st with normal := rest2 })
          else fallbackPick st
        | [] => fallbackPick st
    | [] =>
      match st.normal with
      | n :: rest2 =>
        if fair .NORMAL then (some (n, .NORMAL), { st with normal := rest2 })
        else fallbackPick st
      | [] => (none, st)

/-- `Scheduler._handle_node_emit` from `scheduler.py`, restricted to one
outgoing edge: the per-message default policy is `Block()` for CONTROL
messages and `None` (edge default, i.e. `Latest`) otherwise, and the full
`Message` object `vmsgOf t p` is what is enqueued by `edge.try_put`. -/
def handleNodeEmit (capacity : Nat) (spec : Option (PortSpec PyVal)) (q : List PyVal)
    (t : MessageType) (p : PyVal) : PutOutcome PyVal :=
  tryPut capacity spec q (.vmsgOf t p)
    (if t = .CONTROL then some .Block else none)

/-- The per-message body of `NodeProcessor.process_node_messages` in
`priority_queue.py`, for one input edge: `msg_payload = edge.try_get()`;
if an item came out, a NEW `Message` is constructed around it —
`Message(msg_type, msg_payload)` with `msg_type` inferred from the edge's
priority band (CONTROL band ⇒ CONTROL, anything else ⇒ DATA) — and that
new message is what `node.on_message` receives.  The edge's band comes
from its `EdgeRef` (modelled from the spec: the `runtime_plan` module
holding `EdgeRef` is absent from the sources; the spec gives each edge a
current `PriorityBand`, default Normal). -/
def deliverOne (band : PriorityBand) (q : List PyVal) :
    Option PyVal × List PyVal :=
  match tryGet q with
  | (none, rest) => (none, rest)
  | (some v, rest) =>
    (some (.vmsgOf (if band = .CONTROL then .CONTROL else .DATA) v), rest)

/-- Python dict assignment `m[k] = v`: an existing key keeps its position
and gets the new value; a new key is appended. -/
def dictInsert (m : List (String × β)) (k : String) (v : β) : List (String × β) :=
  if m.any (fun p => p.1 == k) then
    m.map (fun p => if p.1 == k then (k, v) else p)
  else m ++ [(k, v)]

/-- Python `m.get(k)`: the value at the first (unique) occurrence of the
key, or `None`. -/
def dictGet (m : List (String × β)) (k : String) : Option β :=
  (m.find? (fun p => p.1 == k)).map Prod.snd

/-- Python `{**a, **b}`: all of `a`, then each binding of `b` assigned in
order (later keys win, positions of existing keys preserved). -/
def dictMerge (a b : List (String × β)) : List (String × β) :=
  b.foldl (fun acc p => dictInsert acc p.1 p.2) a

/-- The keys of a dict, in insertion order. -/
def dictKeys (m : List (String × β)) : List String :=
  m.map Prod.fst

/-- Python truthiness on the dynamic universe: `0` and `""` are falsy,
every other integer and string is truthy, and object instances such as
`Message` are truthy. -/
def PyVal.truthy : PyVal → Bool
  | .vint n => n != 0
  | .vstr s => s != ""
  | .vmsgOf _ _ => true

/-- Truthiness of `headers.get(k)` (absent keys give `None`, falsy). -/
def headerTruthy (m : List (String × PyVal)) (k : String) : Bool :=
  match dictGet m k with
  | none => false
  | some v => v.truthy

/-- `Message.__post_init__` from `message.py`: if `headers.get("trace_id")`
is falsy, rebuild headers as `{**headers, "trace_id": generate_trace_id()}`;
then, if `headers.get("timestamp")` is falsy, rebuild as
`{**headers, "timestamp": time.time()}`.  The two nondeterministic calls
are passed in as parameters: `freshTrace` stands for
`generate_trace_id()` — `str(uuid.uuid4())`, a 36-character string, hence
non-empty — and `timeNow` for `time.time()`, the positive wall clock. -/
def postInit (freshTrace : String) (timeNow : Int)
    (headers : List (String × PyVal)) : List (String × PyVal) :=
  let h1 :=
    if headerTruthy headers "trace_id" then headers
    else dictInsert headers "trace_id" (.vstr freshTrace)
  if headerTruthy h1 "timestamp" then h1
  else dictInsert h1 "timestamp" (.vint timeNow)

/-- The frozen `Message` dataclass from `message.py` after
`__post_init__` has run. -/
structure Message where
  type : MessageType
  payload : PyVal
  metadata : Option (List (String × PyVal)) := none
  headers : List (String × PyVal) := []
deriving DecidableEq, Repr

/-- Constructing a `Message(type, payload, metadata, headers)`: the
dataclass stores the fields and `__post_init__` normalizes the headers. -/
def mkMessage (freshTrace : String) (timeNow : Int) (type : MessageType)
    (payload : PyVal) (metadata : Option (List (String × PyVal)) := none)
    (headers : List (String × PyVal) := []) : Message :=
  { type := type, payload := payload, metadata := metadata,
    headers := postInit freshTrace timeNow headers }

/-- `Message.with_headers(**new_headers)` from `message.py`: merge the new
headers over the old ones and construct a new `Message` (running
`__post_init__` again on the merged map); the original is untouched. -/
def withHeaders (freshTrace : String) (timeNow : Int) (m : Message)
    (newHeaders : List (String × PyVal)) : Message :=
  mkMessage freshTrace timeNow m.type m.payload m.metadata
    (dictMerge m.headers newHeaders)

/-- The environment a `Scheduler._run_main_loop` execution observes, one
entry per iteration index: the `_shutdown` flag at the top-of-loop poll
(set asynchronously by `shutdown()`), the outcome of
`get_next_runnable()`, and the `monotonic()` reading taken when no
runnable was found.  Clock readings are abstract nondecreasing naturals;
the claims depend only on comparisons against `shutdown_timeout_s`. -/
structure LoopEnv where
  shutdownAt : Nat → Bool
  runnableAt : Nat → Option (String × PriorityBand)
  timeAt : Nat → Nat
  timeoutS : Nat

/-- Why `_run_main_loop` stopped iterating. -/
inductive ExitReason where
  | requested
  | idleTimeout
deriving DecidableEq, Repr

/-- `Scheduler._run_main_loop` from `scheduler.py`, with the per-iteration
work elided (it never exits the loop: handler errors are caught inside
`NodeProcessor`): `while not self._shutdown` polls the flag; when
`get_next_runnable()` yields nothing the loop BREAKS on
`(monotonic() - loop_start) > shutdown_timeout_s` ("Scheduler timeout
reached, shutting down") and otherwise sleeps and continues; when a
runnable exists the iteration services it and continues.  `t0` is
`loop_start`, `i` the iteration index, and the `fuel` bound makes the
unbounded `while` inspectable: `none` means the loop was still running
after `fuel` iterations. -/
def runMainLoop (env : LoopEnv) (t0 : Nat) : Nat → Nat → Option ExitReason
  | 0, _ => none
  | fuel + 1, i =>
    if env.shutdownAt i then some .requested
    else
      match env.runnableAt i with
      | none =>
        if env.timeAt i - t0 > env.timeoutS then some .idleTimeout
        else runMainLoop env t0 fuel (i + 1)
      | some _ => runMainLoop env t0 fuel (i + 1)

/-- A loop environment in which shutdown is never requested, no node is
ever runnable, and the monotonic clock reads `i` at iteration `i`, run
against `shutdown_timeout_s = 2`. -/
def loopEnvNoWork : LoopEnv :=
  ⟨fun _ => false, fun _ => none, fun i => i, 2⟩

/-- A loop environment in which the shutdown flag is already set at the
first poll. -/
def loopEnvShutdown : LoopEnv :=
  ⟨fun _ => true, fun _ => none, fun _ => 0, 2⟩

/-- The lifecycle behavior of one node's hooks: whether `on_start` and
`on_stop` raise when invoked. -/
structure NodeBeh where
  startFails : Bool
  stopFails : Bool
deriving DecidableEq, Repr

/-- `RuntimePlan.nodes` as `NodeProcessor` iterates it.
Modelled from the spec: the `runtime_plan` implementation module is absent
from the sources; the spec specifies `nodes` as a mapping from node name
to NodeRef, filled by the build protocol one node at a time in
registration order with duplicate names rejected, i.e. an
insertion-ordered mapping with unique keys (a Python dict). -/
abbrev PlanNodes := List (String × NodeBeh)

/-- Dict lookup `plan.nodes[name]` restricted to the behavior fields. -/
def lookupBeh (nodes : PlanNodes) (name : String) : Option NodeBeh :=
  (nodes.find? (fun p => p.1 == name)).map Prod.snd

/-- `NodeProcessor.start_all_nodes` from `priority_queue.py`:
`for node_name, node_ref in plan.nodes.items()`, call `on_start()` inside
`try/except` (an exception is logged and counted, the loop continues).
The returned list is the invocation log: each node on which `on_start`
was invoked, in order, paired with whether that call raised. -/
def startAllNodes (nodes : PlanNodes) : List (String × Bool) :=
  nodes.map (fun p => (p.1, p.2.startFails))

/-- `NodeProcessor.stop_all_nodes` from `priority_queue.py`:
`node_names = list(plan.nodes.keys())`; `for node_name in
reversed(node_names)`, call `plan.nodes[node_name].node.on_stop()` inside
`try/except`.  The returned list is the invocation log in call order. -/
def stopAllNodes (nodes : PlanNodes) : List (String × Bool) :=
  (dictKeys nodes).reverse.map (fun name =>
    (name, ((lookupBeh nodes name).map NodeBeh.stopFails).getD false))

/-- A node as `Subgraph.validate` in `subgraph.py` sees it: its name and
the names of its input and output ports. -/
structure SNode where
  name : String
  inputs : List String := []
  outputs : List String := []
deriving DecidableEq, Repr

/-- An edge record as stored in `Subgraph.edges`. -/
structure SEdge where
  source_node : String
  source_port : String
  target_node : String
  target_port : String
  capacity : Int := 1024
deriving DecidableEq, Repr

/-- `ValidationIssue` from `subgraph.py`. -/
structure ValidationIssue where
  level : String
  code : String
  message : String
deriving DecidableEq, Repr

/-- The `Subgraph` dataclass from `subgraph.py`: `nodes` is a dict from
node name to Node, and the exposure maps are dicts keyed by external
name. -/
structure Subgraph where
  name : String
  nodes : List (String × SNode) := []
  edges : List SEdge := []
  exposed_inputs : List (String × (String × String)) := []
  exposed_outputs : List (String × (String × String)) := []

/-- `Subgraph.add_node(node, name=None)` from `subgraph.py`:
`node_name = name or node.name; self.nodes[node_name] = node` — a plain
dict assignment, so a repeated name silently REPLACES the earlier node. -/
def addNode (g : Subgraph) (node : SNode) (name : Option String := none) : Subgraph :=
  { g with nodes := dictInsert g.nodes (name.getD node.name) node }

/-- The edge identifier
`f"{src_node}:{src_port}->{dst_node}:{dst_port}"`. -/
def edgeId (e : SEdge) : String :=
  e.source_node ++ ":" ++ e.source_port ++ "->" ++ e.target_node ++ ":" ++ e.target_port

/-- The per-edge body of the `for e in self.edges` loop in
`Subgraph.validate`: `continue` with an UNKNOWN_NODE issue when either
endpoint is not a node key; otherwise check the source output port, the
target input port, the capacity, and (after the no-op spec/schema block)
the duplicate edge id against the ids seen so far. -/
def validateEdge (nodes : List (String × SNode))
    (acc : List ValidationIssue × List String) (e : SEdge) :
    List ValidationIssue × List String :=
  let issues := acc.1
  let seen := acc.2
  match dictGet nodes e.source_node, dictGet nodes e.target_node with
  | some src, some dst =>
    let issues := issues ++
      (if src.outputs.all (fun p => p ≠ e.source_port) then
        [⟨"error", "NO_SRC_PORT", "src node missing output port"⟩] else []) ++
      (if dst.inputs.all (fun p => p ≠ e.target_port) then
        [⟨"error", "NO_DST_PORT", "dst node missing input port"⟩] else []) ++
      (if e.capacity ≤ 0 then
        [⟨"error", "BAD_CAP", "edge capacity must be > 0"⟩] else []) ++
      (if seen.contains (edgeId e) then
        [⟨"error", "DUP_EDGE", "duplicate edge identifier"⟩] else [])
    (issues, seen ++ [edgeId e])
  | _, _ =>
    (issues ++ [⟨"error", "UNKNOWN_NODE", "edge references unknown node"⟩], seen)

/-- `Subgraph.validate` from `subgraph.py`, in source order: the
duplicate-node-name check `len(self.nodes) != len(set(self.nodes.keys()))`,
the edge loop, the two duplicate-exposure checks (same `len` vs `set`
comparison), and the two dangling-exposure loops
(`n not in self.nodes or all(port.name != p ...)`). -/
def validate (g : Subgraph) : List ValidationIssue :=
  let issues : List ValidationIssue :=
    if g.nodes.length ≠ (dictKeys g.nodes).dedup.length then
      [⟨"error", "DUP_NODE", "duplicate node names"⟩] else []
  let eacc := g.edges.foldl (validateEdge g.nodes) (issues, [])
  let issues := eacc.1
  let issues := issues ++
    (if g.exposed_inputs.length ≠ (dictKeys g.exposed_inputs).dedup.length then
      [⟨"error", "DUP_EXPOSE_IN", "duplicate exposed input names"⟩] else [])
  let issues := issues ++
    (if g.exposed_outputs.length ≠ (dictKeys g.exposed_outputs).dedup.length then
      [⟨"error", "DUP_EXPOSE_OUT", "duplicate exposed output names"⟩] else [])
  let issues := issues ++ g.exposed_inputs.foldl (fun acc kv =>
    match dictGet g.nodes kv.2.1 with
    | some node =>
      if node.inputs.all (fun q => q ≠ kv.2.2) then
        acc ++ [⟨"error", "BAD_EXPOSE_IN", "exposed input references unknown target"⟩]
      else acc
    | none =>
      acc ++ [⟨"error", "BAD_EXPOSE_IN", "exposed input references unknown target"⟩]) []
  let issues := issues ++ g.exposed_outputs.foldl (fun acc kv =>
    match dictGet g.nodes kv.2.1 with
    | some node =>
      if node.outputs.all (fun q => q ≠ kv.2.2) then
        acc ++ [⟨"error", "BAD_EXPOSE_OUT", "exposed output references unknown source"⟩]
      else acc
    | none =>
      acc ++ [⟨"error", "BAD_EXPOSE_OUT", "exposed output references unknown source"⟩]) []
  issues

theorem drain_eq (q : List α) : drain q = q := by
  induction q with
  | nil => rfl
  | cons x rest ih => simpa [drain] using ih

/-- C1: claimed — when `try_put` under a `Coalesce` policy at capacity hits
a raising `merge_fn`, the new item is appended unchanged as a fallback,
the depth is unchanged, and `Coalesced` is still reported.  The code has
no handler around the merge call: on the capacity-1 edge holding "x", a
raising merge makes `try_put("y", Coalesce(boom))` propagate the exception
with the queue left EMPTY (the old tail was popped and lost, "y" was not
appended, depth fell from 1 to 0) and no `Coalesced` result returned. -/
theorem C1_merge_exception_leaves_queue_inconsistent :
    tryPut 1 none ["x"] "y" (some (Policy.Coalesce (fun _ _ => none))) =
      ⟨Except.error PutErr.mergeError, ([] : List String)⟩ ∧
    (Except.error PutErr.mergeError : Except PutErr PutResult) ≠
      Except.ok PutResult.COALESCED ∧
    ([] : List String).length ≠ (["x"] : List String).length := by
  refine ⟨rfl, ?_, by decide⟩
  intro h
  exact Except.noConfusion h

/-- C2: claimed — the downstream handler receives exactly the emitted
`Message` objects.  Evaluating the emit-then-process pipeline on the
message `Message(DATA, 42)`: `_handle_node_emit` enqueues the full
message, but `process_node_messages` dequeues it as a raw payload and
hands the handler a NEW `Message(DATA, <old message>)` that wraps the
emitted message instead of being it. -/
theorem C2_processor_rewraps_dequeued_message :
    (handleNodeEmit 8 none [] .DATA (.vint 42)).result = .ok .OK ∧
    (handleNodeEmit 8 none [] .DATA (.vint 42)).queue =
      [PyVal.vmsgOf .DATA (.vint 42)] ∧
    (deliverOne .NORMAL [PyVal.vmsgOf .DATA (.vint 42)]).1 =
      some (PyVal.vmsgOf .DATA (PyVal.vmsgOf .DATA (.vint 42))) ∧
    PyVal.vmsgOf .DATA (PyVal.vmsgOf .DATA (.vint 42)) ≠
      PyVal.vmsgOf .DATA (.vint 42) := by
  refine ⟨rfl, rfl, rfl, by decide⟩

/-- C3: claimed — for a `Message` item the spec validates
`message.payload`.  Evaluating the code on an int-schema edge and the
item `Message(DATA, 456)`: the payload 456 does satisfy the schema, yet
`try_put` runs `isinstance` on the `Message` object itself, so validation
fails and a `TypeError` is raised with nothing enqueued. -/
theorem C3_spec_validates_message_object_not_payload :
    PortSpec.validate ⟨"i", some isInt⟩ (PyVal.vmsgOf .DATA (.vint 456)) = false ∧
    (PyVal.vmsgOf .DATA (.vint 456)).payloadOf = some (.vint 456) ∧
    isInt (.vint 456) = true ∧
    (tryPut 2 (some ⟨"i", some isInt⟩) ([] : List PyVal)
      (PyVal.vmsgOf .DATA (.vint 456)) none).result = .error .typeError ∧
    (tryPut 2 (some ⟨"i", some isInt⟩) ([] : List PyVal)
      (PyVal.vmsgOf .DATA (.vint 456)) none).queue = [] := by
  exact ⟨rfl, rfl, rfl, rfl, rfl⟩

/-- C9: claimed — calling `add_node` twice with the same name yields a
`DUP_NODE` diagnostic from `validate()`.  Evaluating the code: the second
`add_node` silently replaces the first in the `nodes` dict (one entry
remains), and `validate()` returns NO issues — its duplicate check
compares the dict's key count with the size of the set of those keys,
which can never differ. -/
theorem C9_duplicate_add_node_not_detected :
    (addNode (addNode ⟨"g", [], [], [], []⟩ ⟨"n", [], []⟩ none)
      ⟨"n", ["i"], []⟩ none).nodes = [("n", ⟨"n", ["i"], []⟩)] ∧
    validate (addNode (addNode ⟨"g", [], [], [], []⟩ ⟨"n", [], []⟩ none)
      ⟨"n", ["i"], []⟩ none) = [] := by
  exact ⟨rfl, rfl⟩

/-- With a non-empty queue or non-zero capacity, `Edge._coalesce` leaves
at most `max 1 q.length` items, so it never exceeds a capacity the queue
already saturated. -/
theorem coalescePut_length_le (fn : α → α → Option α) (q : List α) (item : α)
    (cap : Nat) (hpos : 0 < cap) (hle : q.length ≤ cap) :
    ((coalescePut fn q item).queue).length ≤ cap := by
  unfold coalescePut
  cases hlast : q.getLast? with
  | none =>
    have hq : q = [] := List.getLast?_eq_none_iff.mp hlast
    subst hq
    simpa using hpos
  | some old =>
    have hq1 : 1 ≤ q.length := by
      cases q with
      | nil => simp at hlast
      | cons a as => simp
    cases hfn : fn old item with
    | some merged =>
      simp [hfn, List.length_dropLast]
      omega
    | none =>
      simp [hfn, List.length_dropLast]
      omega

/-- On an edge with positive capacity, `try_put` never grows the queue
beyond `capacity`, whatever policy is used and also when it raises. -/
theorem tryPut_length_le (cap : Nat) (spec : Option (PortSpec α)) (q : List α)
    (item : α) (policy : Option (Policy α))
    (hpos : 0 < cap) (hle : q.length ≤ cap) :
    ((tryPut cap spec q item policy).queue).length ≤ cap := by
  unfold tryPut
  by_cases hs : specRejects spec item = true
  · simp [hs]
    exact hle
  · simp only [Bool.not_eq_true] at hs
    simp only [hs]
    rcases hpol : policy.getD Policy.Latest with _ | _ | _ | fn <;>
      simp only [onEnqueue, ge_iff_le]
    · -- Block
      by_cases hfull : cap ≤ q.length
      · rw [if_pos hfull]
        exact hle
      · rw [if_neg hfull]
        simp
        omega
    · -- Drop
      by_cases hfull : cap ≤ q.length
      · rw [if_pos hfull]
        exact hle
      · rw [if_neg hfull]
        simp
        omega
    · -- Latest
      by_cases hfull : cap ≤ q.length
      · rw [if_pos hfull]
        cases q with
        | nil =>
          exfalso
          simp at hfull
          omega
        | cons a as =>
          simp only [List.length_cons] at hle hfull
          simp [List.length_dropLast]
          omega
      · rw [if_neg hfull]
        simp
        omega
    · -- Coalesce
      by_cases hfull : cap ≤ q.length
      · rw [if_pos hfull]
        exact coalescePut_length_le fn q item cap hpos hle
      · rw [if_neg hfull]
        simp
        omega

/-- C4, counterexample: the claim includes the scheduler's `set_capacity`
mutator among the invariant-preserving operations, but `set_capacity`
only checks `capacity > 0` and never drains the queue: shrinking a
capacity-2 edge holding two items to capacity 1 succeeds and leaves
`depth() = 2 > 1 = capacity`. -/
theorem C4_counterexample :
    setCapacity (⟨2, none, [PyVal.vint 0, PyVal.vint 1]⟩ : EdgeState PyVal) 1 =
      .ok (⟨1, none, [PyVal.vint 0, PyVal.vint 1]⟩ : EdgeState PyVal) ∧
    EdgeInv (⟨2, none, [PyVal.vint 0, PyVal.vint 1]⟩ : EdgeState PyVal) ∧
    ¬ EdgeInv (⟨1, none, [PyVal.vint 0, PyVal.vint 1]⟩ : EdgeState PyVal) := by
  refine ⟨rfl, ?_, ?_⟩
  · unfold EdgeInv
    decide
  · unfold EdgeInv
    decide

/-- C4, amended: `0 ≤ depth() ≤ capacity` holds on a freshly constructed
edge and is preserved by `try_put` under each of Block, Drop, Latest and
Coalesce (also on the raising paths), and by `try_get`, provided the
capacity is positive; `set_capacity` preserves it only when the new
capacity is at least the current depth (shrinking below the current depth
violates it, see the counterexample).  `0 ≤ depth()` is inherent in the
embedding (`Nat` lengths), so `EdgeInv` carries the upper bound. -/
theorem C4_amended_depth_invariant (α : Type) (e : EdgeState α)
    (hpos : 0 < e.capacity) (hinv : EdgeInv e) :
    (∀ (cap : Nat) (spec : Option (PortSpec α)),
      EdgeInv (⟨cap, spec, []⟩ : EdgeState α)) ∧
    (∀ (item : α) (policy : Option (Policy α)), EdgeInv (putState e item policy)) ∧
    EdgeInv (getState e) ∧
    (∀ (c : Int) (e2 : EdgeState α), setCapacity e c = .ok e2 →
      e.queue.length ≤ c.toNat → EdgeInv e2) := by
  refine ⟨?_, ?_, ?_, ?_⟩
  · intro cap spec
    simp [EdgeInv]
  · intro item policy
    exact tryPut_length_le e.capacity e.spec e.queue item policy hpos hinv
  · obtain ⟨cap, spec, queue⟩ := e
    unfold EdgeInv at hinv
    unfold EdgeInv getState tryGet
    cases queue with
    | nil => simp
    | cons a as =>
      simp only [List.length_cons] at hinv
      simp
      omega
  · intro c e2 hok hlen
    unfold setCapacity at hok
    by_cases hc : c ≤ 0
    · rw [if_pos hc] at hok
      exact Except.noConfusion hok
    · rw [if_neg hc] at hok
      injection hok with hok
      subst hok
      exact hlen

/-- C4 witness: the amended invariant applied to a concrete capacity-2
edge holding one item, specialized to a concrete put. -/
theorem C4_amended_witness :
    0 < (⟨2, none, [PyVal.vint 5]⟩ : EdgeState PyVal).capacity ∧
    EdgeInv (⟨2, none, [PyVal.vint 5]⟩ : EdgeState PyVal) ∧
    EdgeInv (putState (⟨2, none, [PyVal.vint 5]⟩ : EdgeState PyVal) (PyVal.vint 7)
      (some .Drop)) ∧
    EdgeInv (getState (⟨2, none, [PyVal.vint 5]⟩ : EdgeState PyVal)) := by
  have h1 : 0 < (⟨2, none, [PyVal.vint 5]⟩ : EdgeState PyVal).capacity := by decide
  have h2 : EdgeInv (⟨2, none, [PyVal.vint 5]⟩ : EdgeState PyVal) := by
    unfold EdgeInv
    decide
  have h := C4_amended_depth_invariant PyVal ⟨2, none, [PyVal.vint 5]⟩ h1 h2
  exact ⟨h1, h2, h.2.1 (PyVal.vint 7) (some .Drop), h.2.2.1⟩

/-- C5: confirmed — on an edge whose depth equals its (positive) capacity
and whose spec does not reject `x`, `try_put(x)` under Latest returns
Replaced, removes the most recently enqueued item (the tail) and appends
`x`, leaves the depth unchanged, and a full drain yields the earlier
items in their original order followed by `x` in the former tail
position. -/
theorem C5_latest_at_capacity (α : Type) (spec : Option (PortSpec α))
    (cap : Nat) (q : List α) (x : α)
    (hcap : 0 < cap) (hfull : q.length = cap) (hspec : specRejects spec x = false) :
    (tryPut cap spec q x (some .Latest)).result = .ok .REPLACED ∧
    (tryPut cap spec q x (some .Latest)).queue = q.dropLast ++ [x] ∧
    ((tryPut cap spec q x (some .Latest)).queue).length = q.length ∧
    drain ((tryPut cap spec q x (some .Latest)).queue) = q.dropLast ++ [x] := by
  have hne : q ≠ [] := by
    intro h
    subst h
    simp at hfull
    omega
  have hq : tryPut cap spec q x (some .Latest) =
      ⟨.ok .REPLACED, q.dropLast ++ [x]⟩ := by
    unfold tryPut
    rw [if_neg (by simp [hspec])]
    simp only [Option.getD_some, onEnqueue, ge_iff_le]
    rw [if_pos (le_of_eq hfull.symm)]
    rw [if_neg]
    simp [hne]
  rw [hq]
  refine ⟨rfl, rfl, ?_, drain_eq _⟩
  have hq1 : 1 ≤ q.length := by
    cases q with
    | nil => exact absurd rfl hne
    | cons a as => simp
  simp [List.length_dropLast]
  omega

/-- C5 witness: a capacity-2 edge holding [1, 2]; `try_put 9` under
Latest replaces the tail. -/
theorem C5_witness :
    0 < 2 ∧ ([(1 : Int), 2]).length = 2 ∧ specRejects none (9 : Int) = false ∧
    (tryPut 2 none [(1 : Int), 2] 9 (some .Latest)).result = .ok .REPLACED ∧
    (tryPut 2 none [(1 : Int), 2] 9 (some .Latest)).queue = [1, 9] ∧
    drain ((tryPut 2 none [(1 : Int), 2] 9 (some .Latest)).queue) = [1, 9] := by
  have h := C5_latest_at_capacity Int none 2 [(1 : Int), 2] 9
    (by decide) (by decide) rfl
  exact ⟨by decide, by decide, rfl, h.1, h.2.1, h.2.2.2⟩

/-- C6: confirmed — whenever the Control band's ready queue is non-empty,
`get_next_runnable` returns its front node tagged with the Control band,
for EVERY valuation of the floating-point fairness test (so no High- or
Normal-band node can be returned while Control has work). -/
theorem C6_control_preempts (fair : PriorityBand → Bool) (st : PQState)
    (h : st.control ≠ []) :
    ∃ name rest, st.control = name :: rest ∧
      (getNextRunnable fair st).1 = some (name, .CONTROL) := by
  cases hc : st.control with
  | nil => exact absurd hc h
  | cons c rest =>
    refine ⟨c, rest, rfl, ?_⟩
    unfold getNextRunnable
    rw [hc]
    simp

/-- C6 witness: a queue state with Control = [c1] and High = [h1]; the
fairness test that always refuses still yields c1 from Control. -/
theorem C6_witness :
    (⟨["c1"], ["h1"], []⟩ : PQState).control ≠ [] ∧
    (∃ name rest, (⟨["c1"], ["h1"], []⟩ : PQState).control = name :: rest ∧
      (getNextRunnable (fun _ => false) ⟨["c1"], ["h1"], []⟩).1 =
        some (name, .CONTROL)) := by
  have h : (⟨["c1"], ["h1"], []⟩ : PQState).control ≠ [] := by simp
  exact ⟨h, C6_control_preempts (fun _ => false) ⟨["c1"], ["h1"], []⟩ h⟩

/-- C7, counterexample: the claim says the loop exits ONLY after
observing the shutdown flag.  With the flag never set and no runnable
node, the loop exits on its own at the first iteration whose clock
reading exceeds `shutdown_timeout_s` past `loop_start` (the
"Scheduler timeout reached, shutting down" break) — here at iteration 3,
with the flag false at every iteration it polled. -/
theorem C7_counterexample :
    runMainLoop loopEnvNoWork 0 10 0 = some .idleTimeout ∧
    loopEnvNoWork.shutdownAt 0 = false ∧ loopEnvNoWork.shutdownAt 1 = false ∧
    loopEnvNoWork.shutdownAt 2 = false ∧ loopEnvNoWork.shutdownAt 3 = false := by
  exact ⟨rfl, rfl, rfl, rfl, rfl⟩

/-- C7, amended: the main loop exits only by one of two routes — it
observed the shutdown flag set, or it found no runnable node at an
iteration whose clock reading exceeds `shutdown_timeout_s` past
`loop_start` (the idle-timeout break, taken with the flag still false). -/
theorem C7_amended_exit_conditions (env : LoopEnv) (t0 fuel i : Nat)
    (r : ExitReason) (h : runMainLoop env t0 fuel i = some r) :
    ∃ j, i ≤ j ∧
      ((r = .requested ∧ env.shutdownAt j = true) ∨
       (r = .idleTimeout ∧ env.shutdownAt j = false ∧ env.runnableAt j = none ∧
        env.timeAt j - t0 > env.timeoutS)) := by
  induction fuel generalizing i with
  | zero =>
    exact Option.noConfusion h
  | succ fuel ih =>
    unfold runMainLoop at h
    by_cases hs : env.shutdownAt i = true
    · rw [if_pos hs] at h
      injection h with h
      exact ⟨i, le_refl i, Or.inl ⟨h.symm, hs⟩⟩
    · rw [if_neg hs] at h
      cases hr : env.runnableAt i with
      | none =>
        rw [hr] at h
        by_cases htime : env.timeAt i - t0 > env.timeoutS
        · rw [if_pos htime] at h
          injection h with h
          exact ⟨i, le_refl i,
            Or.inr ⟨h.symm, Bool.eq_false_iff.mpr hs, hr, htime⟩⟩
        · rw [if_neg htime] at h
          obtain ⟨j, hij, hj⟩ := ih (i + 1) h
          exact ⟨j, by omega, hj⟩
      | some nb =>
        rw [hr] at h
        obtain ⟨j, hij, hj⟩ := ih (i + 1) h
        exact ⟨j, by omega, hj⟩

/-- C7 witness: with the flag set at the first poll, one iteration
suffices and the exit is by the requested route. -/
theorem C7_witness :
    runMainLoop loopEnvShutdown 0 1 0 = some .requested ∧
    ∃ j, 0 ≤ j ∧
      ((ExitReason.requested = .requested ∧ loopEnvShutdown.shutdownAt j = true) ∨
       (ExitReason.requested = .idleTimeout ∧ loopEnvShutdown.shutdownAt j = false ∧
        loopEnvShutdown.runnableAt j = none ∧
        loopEnvShutdown.timeAt j - 0 > loopEnvShutdown.timeoutS)) := by
  have h : runMainLoop loopEnvShutdown 0 1 0 = some .requested := rfl
  exact ⟨h, C7_amended_exit_conditions loopEnvShutdown 0 1 0 .requested h⟩

/-- The order in which `stop_all_nodes` invokes `on_stop` is exactly the
reverse of the plan's insertion order, for every assignment of raising
behavior to the hooks. -/
theorem stopAllNodes_order (ns : PlanNodes) :
    (stopAllNodes ns).map Prod.fst = (dictKeys ns).reverse := by
  unfold stopAllNodes
  rw [List.map_map]
  exact List.map_id ((dictKeys ns).reverse)

/-- C8: confirmed — `stop_all_nodes` invokes `on_stop` once per node in
the REVERSE of insertion order and `start_all_nodes` invokes `on_start`
in insertion order; both invocation sequences are determined by the node
names alone, for EVERY assignment of raising behavior to the hooks (the
`try/except` around each call isolates failures), so one node's raising
hook never suppresses another node's callback. -/
theorem C8_stop_reverse_order_isolated (nodes : PlanNodes)
    (hnd : (dictKeys nodes).Nodup) :
    (stopAllNodes nodes).map Prod.fst = (dictKeys nodes).reverse ∧
    (startAllNodes nodes).map Prod.fst = dictKeys nodes ∧
    (∀ name ∈ dictKeys nodes,
      ((stopAllNodes nodes).map Prod.fst).count name = 1) ∧
    (∀ nodes2 : PlanNodes, dictKeys nodes2 = dictKeys nodes →
      (stopAllNodes nodes2).map Prod.fst = (stopAllNodes nodes).map Prod.fst ∧
      (startAllNodes nodes2).map Prod.fst = (startAllNodes nodes).map Prod.fst) := by
  have hstart : ∀ ns : PlanNodes, (startAllNodes ns).map Prod.fst = dictKeys ns := by
    intro ns
    unfold startAllNodes dictKeys
    rw [List.map_map]
    rfl
  refine ⟨stopAllNodes_order nodes, hstart nodes, ?_, ?_⟩
  · intro name hmem
    rw [stopAllNodes_order nodes]
    exact List.count_eq_one_of_mem (List.nodup_reverse.mpr hnd)
      (List.mem_reverse.mpr hmem)
  · intro nodes2 h2
    constructor
    · rw [stopAllNodes_order nodes2, stopAllNodes_order nodes, h2]
    · rw [hstart nodes2, hstart nodes, h2]

/-- C8 witness: a two-node plan in which A's `on_stop` raises and B's
`on_start` raises; the stop order is still [B, A] and each hook is still
invoked exactly once. -/
theorem C8_witness :
    (dictKeys [("A", (⟨false, true⟩ : NodeBeh)), ("B", ⟨true, false⟩)]).Nodup ∧
    (stopAllNodes [("A", (⟨false, true⟩ : NodeBeh)), ("B", ⟨true, false⟩)]).map
      Prod.fst = ["B", "A"] ∧
    ((stopAllNodes [("A", (⟨false, true⟩ : NodeBeh)), ("B", ⟨true, false⟩)]).map
      Prod.fst).count "A" = 1 := by
  have hnd : (dictKeys [("A", (⟨false, true⟩ : NodeBeh)), ("B", ⟨true, false⟩)]).Nodup := by
    decide
  have h := C8_stop_reverse_order_isolated
    [("A", (⟨false, true⟩ : NodeBeh)), ("B", ⟨true, false⟩)] hnd
  exact ⟨hnd, h.1, h.2.2.1 "A" (by decide)⟩

/-- Replacing the value at a key nobody holds is the identity. -/
theorem map_replace_of_any_eq_false (ps : List (String × β)) (k : String) (v : β)
    (h : ps.any (fun p => p.1 == k) = false) :
    ps.map (fun p => if p.1 == k then (k, v) else p) = ps := by
  induction ps with
  | nil => rfl
  | cons p ps ih =>
    simp only [List.any_cons, Bool.or_eq_false_iff] at h
    simp only [List.map_cons, h.1, if_neg, Bool.false_eq_true, ih h.2]
    simp [h.1]

/-- A dict read at the key just written returns the written value. -/
theorem dictGet_dictInsert_self (m : List (String × β)) (k : String) (v : β) :
    dictGet (dictInsert m k v) k = some v := by
  unfold dictInsert
  by_cases h : m.any (fun p => p.1 == k) = true
  · rw [if_pos h]
    induction m with
    | nil => simp at h
    | cons p ps ih =>
      by_cases hp : (p.1 == k) = true
      · simp only [List.map_cons, if_pos hp]
        simp only [dictGet, List.find?_cons, beq_self_eq_true]
        rfl
      · have hpf : (p.1 == k) = false := Bool.eq_false_iff.mpr hp
        have htail : ps.any (fun q => q.1 == k) = true := by
          simpa [hpf] using h
        simp only [List.map_cons, if_neg hp]
        simp only [dictGet, List.find?_cons, hpf]
        simpa [dictGet] using ih htail
  · rw [if_neg h]
    induction m with
    | nil => simp [dictGet]
    | cons p ps ih =>
      have hp : (p.1 == k) = false := by
        by_contra hc
        simp only [Bool.not_eq_false] at hc
        exact h (by simp [List.any_cons, hc])
      have htail : ¬ ps.any (fun q => q.1 == k) = true := by
        intro hc
        exact h (by simp [List.any_cons, hc])
      simp only [List.cons_append]
      simp only [dictGet, List.find?_cons, hp]
      simpa [dictGet] using ih htail

/-- A dict read at another key is unaffected by a write. -/
theorem dictGet_dictInsert_ne (m : List (String × β)) (k k2 : String) (v : β)
    (hne : k2 ≠ k) : dictGet (dictInsert m k v) k2 = dictGet m k2 := by
  have hkk2 : (k == k2) = false := by
    simp [Ne.symm hne]
  unfold dictInsert
  by_cases h : m.any (fun p => p.1 == k) = true
  · rw [if_pos h]
    induction m with
    | nil => simp
    | cons p ps ih =>
      by_cases hp : (p.1 == k) = true
      · have hpk : p.1 = k := by simpa using hp
        have h2 : (p.1 == k2) = false := by
          simp [hpk, Ne.symm hne]
        simp only [List.map_cons, if_pos hp]
        simp only [dictGet, List.find?_cons, hkk2, h2]
        by_cases ht : ps.any (fun q => q.1 == k) = true
        · simpa [dictGet] using ih ht
        · have htf : ps.any (fun q => q.1 == k) = false :=
            Bool.eq_false_iff.mpr ht
          rw [map_replace_of_any_eq_false ps k v htf]
      · simp only [List.map_cons, if_neg hp]
        simp only [dictGet, List.find?_cons]
        by_cases hq : (p.1 == k2) = true
        · simp [hq]
        · have hqf : (p.1 == k2) = false := Bool.eq_false_iff.mpr hq
          simp only [hqf]
          by_cases ht : ps.any (fun q => q.1 == k) = true
          · simpa [dictGet] using ih ht
          · have htf : ps.any (fun q => q.1 == k) = false :=
              Bool.eq_false_iff.mpr ht
            rw [map_replace_of_any_eq_false ps k v htf]
  · rw [if_neg h]
    induction m with
    | nil => simp [dictGet, hkk2]
    | cons p ps ih =>
      have htail : ¬ ps.any (fun q => q.1 == k) = true := by
        intro hc
        exact h (by simp [List.any_cons, hc])
      simp only [List.cons_append]
      simp only [dictGet, List.find?_cons]
      by_cases hq : (p.1 == k2) = true
      · simp [hq]
      · have hqf : (p.1 == k2) = false := Bool.eq_false_iff.mpr hq
        simp only [hqf]
        simpa [dictGet] using ih htail

/-- After `__post_init__`, the `trace_id` header is present and truthy
(assuming, as `uuid4` guarantees, a non-empty generated id). -/
theorem postInit_trace_truthy (freshTrace : String) (timeNow : Int)
    (headers : List (String × PyVal)) (hf : freshTrace ≠ "") :
    ∃ v, dictGet (postInit freshTrace timeNow headers) "trace_id" = some v ∧
      v.truthy = true := by
  unfold postInit
  have hstep : ∀ (h1 : List (String × PyVal)) (v : PyVal),
      dictGet h1 "trace_id" = some v →
      dictGet (if headerTruthy h1 "timestamp" then h1
        else dictInsert h1 "timestamp" (.vint timeNow)) "trace_id" = some v := by
    intro h1 v hv
    by_cases hts : headerTruthy h1 "timestamp" = true
    · rw [if_pos hts]
      exact hv
    · rw [if_neg hts]
      rw [dictGet_dictInsert_ne h1 "timestamp" "trace_id" _ (by decide)]
      exact hv
  by_cases htr : headerTruthy headers "trace_id" = true
  · rw [if_pos htr]
    unfold headerTruthy at htr
    cases hv : dictGet headers "trace_id" with
    | none =>
      rw [hv] at htr
      exact absurd htr (by simp)
    | some v =>
      rw [hv] at htr
      exact ⟨v, hstep headers v hv, htr⟩
  · rw [if_neg htr]
    refine ⟨.vstr freshTrace, ?_, by simp [PyVal.truthy, hf]⟩
    exact hstep _ _ (dictGet_dictInsert_self headers "trace_id" (.vstr freshTrace))

/-- After `__post_init__`, the `timestamp` header is present and truthy
(assuming, as the wall clock guarantees, a non-zero `time.time()`). -/
theorem postInit_timestamp_truthy (freshTrace : String) (timeNow : Int)
    (headers : List (String × PyVal)) (ht : timeNow ≠ 0) :
    ∃ v, dictGet (postInit freshTrace timeNow headers) "timestamp" = some v ∧
      v.truthy = true := by
  unfold postInit
  set h1 := if headerTruthy headers "trace_id" then headers
    else dictInsert headers "trace_id" (.vstr freshTrace) with hh1
  by_cases hts : headerTruthy h1 "timestamp" = true
  · rw [if_pos hts]
    unfold headerTruthy at hts
    cases hv : dictGet h1 "timestamp" with
    | none =>
      rw [hv] at hts
      exact absurd hts (by simp)
    | some v =>
      rw [hv] at hts
      exact ⟨v, rfl, hts⟩
  · rw [if_neg hts]
    refine ⟨.vint timeNow, ?_, by simp [PyVal.truthy, ht]⟩
    exact dictGet_dictInsert_self h1 "timestamp" (.vint timeNow)

/-- C10: confirmed — every constructed `Message` carries a truthy
`trace_id` and a truthy `timestamp` header, whatever headers were
supplied; and `with_headers(trace_id="")` cannot produce an empty
trace_id: the merged falsy value is replaced by the freshly generated id
when `__post_init__` runs on the new message. -/
theorem C10_message_headers_normalized (freshTrace : String) (timeNow : Int)
    (ty : MessageType) (payload : PyVal)
    (metadata : Option (List (String × PyVal))) (headers : List (String × PyVal))
    (m : Message) (hf : freshTrace ≠ "") (ht : timeNow ≠ 0) :
    (∃ v, dictGet (mkMessage freshTrace timeNow ty payload metadata headers).headers
        "trace_id" = some v ∧ v.truthy = true) ∧
    (∃ v, dictGet (mkMessage freshTrace timeNow ty payload metadata headers).headers
        "timestamp" = some v ∧ v.truthy = true) ∧
    (dictGet (withHeaders freshTrace timeNow m
        [("trace_id", .vstr "")]).headers "trace_id" =
      some (.vstr freshTrace) ∧ freshTrace ≠ "") := by
  refine ⟨postInit_trace_truthy freshTrace timeNow headers hf,
    postInit_timestamp_truthy freshTrace timeNow headers ht, ?_, hf⟩
  unfold withHeaders mkMessage
  show dictGet (postInit freshTrace timeNow
    (dictMerge m.headers [("trace_id", .vstr "")])) "trace_id" =
      some (.vstr freshTrace)
  have hmerge : dictMerge m.headers [("trace_id", .vstr "")] =
      dictInsert m.headers "trace_id" (.vstr "") := rfl
  rw [hmerge]
  unfold postInit
  have hfalsy : headerTruthy (dictInsert m.headers "trace_id" (.vstr ""))
      "trace_id" = false := by
    unfold headerTruthy
    rw [dictGet_dictInsert_self]
    rfl
  rw [hfalsy]
  simp only [Bool.false_eq_true, if_false]
  set h1 := dictInsert (dictInsert m.headers "trace_id" (.vstr ""))
    "trace_id" (.vstr freshTrace) with hh1
  have hget : dictGet h1 "trace_id" = some (PyVal.vstr freshTrace) :=
    dictGet_dictInsert_self _ "trace_id" (PyVal.vstr freshTrace)
  by_cases hts : headerTruthy h1 "timestamp" = true
  · rw [if_pos hts]
    exact hget
  · rw [if_neg hts]
    rw [dictGet_dictInsert_ne h1 "timestamp" "trace_id" _ (by decide)]
    exact hget

/-- C10 witness: headers supplying falsy values for both structural keys
are replaced at construction, and `with_headers(trace_id="")` on a
message yields the fresh id. -/
theorem C10_witness :
    ("abc" : String) ≠ "" ∧ (5 : Int) ≠ 0 ∧
    (∃ v, dictGet (mkMessage "abc" 5 .DATA (.vint 1) none
        [("trace_id", .vstr ""), ("timestamp", .vint 0)]).headers
        "trace_id" = some v ∧ v.truthy = true) ∧
    dictGet (withHeaders "abc" 5 (mkMessage "t0" 1 .DATA (.vint 1) none [])
        [("trace_id", .vstr "")]).headers "trace_id" = some (.vstr "abc") := by
  have hf : ("abc" : String) ≠ "" := by decide
  have ht : (5 : Int) ≠ 0 := by decide
  have h := C10_message_headers_normalized "abc" 5 .DATA (.vint 1) none
    [("trace_id", .vstr ""), ("timestamp", .vint 0)]
    (mkMessage "t0" 1 .DATA (.vint 1) none []) hf ht
  exact ⟨hf, ht, h.1, h.2.2.1⟩

end Arachne
